import Mathlib

/-
Verification development for `approxLCM.py` (approximate-LCM MILP pipeline).

The program reads ingredient rows, builds a mixed-integer linear program with
one integer variable `x_i` per ingredient and one continuous variable `s`,
solves it with an external solver (pulp), and derives per-ingredient purchase,
cost and waste figures from the solved variable values.

The embedding below models:
  * a data row (`Row`) with the already-parsed fields the program reads
    (`row[0]`..`row[5]`: name, index, servingsPerBlock, costPerServing,
    min aLCM, max aLCM); real numbers are modelled by `ℚ`;
  * pulp affine expressions (`Expr`) as coefficient maps over the `x`
    variables plus an `s` coefficient and a constant;
  * `runLPP` (model construction, `approxLCM.py` lines 48-91) returning the
    built problem, or the `IndexError` Python raises on an empty row list;
  * the external solver's result (`Solution`): variable values plus a status;
    the source discards `problem.solve()`'s return value, which the theorems
    below make explicit;
  * `output` (result derivation, lines 95-114) including Python list-indexing
    semantics for the `variables[int(row[1]) - 1]` lookup (`pyGet`);
  * `pipeline` = `main` minus the out-of-scope CSV adapters.
-/

namespace ALCM

/-- Python list indexing: nonnegative indices from the front, negative
indices from the back, out-of-range is an `IndexError` (here `none`). -/
def pyGet (l : List α) (i : ℤ) : Option α :=
  if 0 ≤ i then l[i.toNat]?
  else if (-i).toNat ≤ l.length then l[l.length - (-i).toNat]?
  else none

/-- One data row of the input CSV, with the fields the program reads already
parsed: `row[0]` name, `int(row[1])` index, `float(row[2])` servingsPerBlock,
`float(row[3])` costPerServing, `float(row[4])` min aLCM, `float(row[5])`
max aLCM (the last two are only read off the first row). -/
structure Row where
  name : String
  index : ℤ
  spb : ℚ
  cps : ℚ
  minS : ℚ
  maxS : ℚ
deriving DecidableEq

/-- A pulp affine expression over the variables `x_0, ..., x_{n-1}` and `s`:
a coefficient for every `x` index, a coefficient for `s`, and a constant. -/
structure Expr where
  xcoef : ℕ → ℚ
  scoef : ℚ
  const : ℚ

/-- Pointwise sum of affine expressions (pulp `+`). -/
def Expr.add (e f : Expr) : Expr :=
  ⟨fun i => e.xcoef i + f.xcoef i, e.scoef + f.scoef, e.const + f.const⟩

/-- Pointwise difference of affine expressions (pulp `-`). -/
def Expr.sub (e f : Expr) : Expr :=
  ⟨fun i => e.xcoef i - f.xcoef i, e.scoef - f.scoef, e.const - f.const⟩

/-- The expression `c * x_i`. -/
def xvar (i : ℕ) (c : ℚ) : Expr :=
  ⟨fun j => if j = i then c else 0, 0, 0⟩

/-- The expression `c * s`. -/
def svar (c : ℚ) : Expr :=
  ⟨fun _ => 0, c, 0⟩

/-- A constant expression. -/
def constE (c : ℚ) : Expr :=
  ⟨fun _ => 0, 0, c⟩

/-- Value of an affine expression at an assignment: `xs` lists the values of
`x_0, ..., x_{n-1}` and `s` is the value of the `s` variable. -/
def evalE (n : ℕ) (e : Expr) (xs : List ℚ) (s : ℚ) : ℚ :=
  (∑ i ∈ Finset.range n, e.xcoef i * xs.getD i 0) + e.scoef * s + e.const

/-- Direction of a pulp constraint: `e1 >= e2` is stored as `e1 - e2` with
sense `ge`, `e1 <= e2` as `e1 - e2` with sense `le`. -/
inductive Sense
  | ge
  | le
deriving DecidableEq

/-- One linear constraint of the model. -/
structure Constr where
  e : Expr
  sense : Sense

/-- Satisfaction of a constraint at an assignment. -/
def Constr.holds (n : ℕ) (c : Constr) (xs : List ℚ) (s : ℚ) : Prop :=
  match c.sense with
  | .ge => 0 ≤ evalE n c.e xs s
  | .le => evalE n c.e xs s ≤ 0

/-- pulp variable category. -/
inductive Cat
  | integer
  | continuous
deriving DecidableEq

/-- A pulp decision variable: name, lower bound, upper bound, category. -/
structure VarSpec where
  vname : String
  lb : Option ℚ
  ub : Option ℚ
  cat : Cat
deriving DecidableEq

/-- The built MILP, as `runLPP` hands it to `problem.solve()`: the variable
specifications, the data lists read off the rows, the range bounds from the
first row, the constraint list (in insertion order) and the objective. -/
structure Problem where
  n : ℕ
  ingredients : List String
  xVars : List VarSpec
  sVar : VarSpec
  spb : List ℚ
  cps : List ℚ
  minServe : ℚ
  maxServe : ℚ
  constraints : List Constr
  objective : Expr

/-- The only failure the modelled code can raise on pre-parsed rows: a Python
`IndexError` (empty-input bounds read in `runLPP`, bad variable lookup in
`output`).  The source defines no validation errors of its own. -/
inductive PyErr
  | indexError
deriving DecidableEq

/-- Solver status as reported by `problem.solve()` / pulp.  The source
discards this value. -/
inductive Status
  | optimal
  | infeasible
  | unbounded
  | solverError
deriving DecidableEq

/-- What the external solver leaves behind: a value for every `x` variable
(in creation order), a value for `s`, and the status. -/
structure Solution where
  xvals : List ℚ
  sval : ℚ
  status : Status

/-- Model construction for a non-empty row list, mirroring `runLPP`
(`approxLCM.py` lines 48-88): per-row integer variables `x_{row[1]}` with
lower bound 0 and no upper bound, the continuous variable `s` with lower
bound 0, the range constraints `s >= minServe` and `s <= maxServe`, one
block constraint `x_v * servingsPerBlock[v] >= s` per row, and the objective
built by summing `x_i * costsPerServing[i] * servingsPerBlock[i]` and
subtracting `s` times the accumulated price per serving. -/
def buildProblem (first : Row) (rest : List Row) : Problem :=
  let lines := first :: rest
  let n := lines.length
  let xVars := lines.map (fun r => VarSpec.mk ("x_" ++ toString r.index) (some 0) none .integer)
  let ingredients := lines.map Row.name
  let spb := lines.map Row.spb
  let cps := lines.map Row.cps
  let sVar : VarSpec := ⟨"s", some 0, none, .continuous⟩
  let minServe := first.minS
  let maxServe := first.maxS
  let rangeCs : List Constr :=
    [⟨(svar 1).sub (constE minServe), .ge⟩, ⟨(svar 1).sub (constE maxServe), .le⟩]
  let blockCs : List Constr :=
    (List.range n).map (fun v => ⟨(xvar v (spb.getD v 0)).sub (svar 1), .ge⟩)
  let pps := cps.foldl (· + ·) 0
  let objX := (List.range n).foldl
    (fun e i => e.add (xvar i (cps.getD i 0 * spb.getD i 0))) (xvar 0 0)
  let obj := objX.sub (svar pps)
  ⟨n, ingredients, xVars, sVar, spb, cps, minServe, maxServe, rangeCs ++ blockCs, obj⟩

/-- `runLPP` (`approxLCM.py` lines 48-91): on an empty row list the read of
`lines[0][4]` raises `IndexError`; otherwise the model is built and handed to
the solver.  No input validation of any kind is performed. -/
def runLPP (lines : List Row) : Except PyErr Problem :=
  match lines with
  | [] => .error .indexError
  | first :: rest => .ok (buildProblem first rest)

/-- Python 2 `round(q, 2)`: round to the nearest hundredth (tie behaviour is
immaterial to the properties proved below). -/
def round2 (q : ℚ) : ℚ :=
  ((round (q * 100) : ℤ) : ℚ) / 100

/-- Python 2 `round(q, 3)`: round to the nearest thousandth. -/
def round3 (q : ℚ) : ℚ :=
  ((round (q * 1000) : ℤ) : ℚ) / 1000

/-- The three per-row output fields written to columns 8-10
(`approxLCM.py` lines 107-110). -/
structure OutRow where
  units : ℚ
  cost : ℚ
  waste : ℚ
deriving DecidableEq

instance : Inhabited OutRow := ⟨⟨0, 0, 0⟩⟩

/-- The summary fields written to columns 11-13 of the first row
(`approxLCM.py` lines 111-113). -/
structure Summary where
  aLCM : ℚ
  totalCost : ℚ
  totalWaste : ℚ
deriving DecidableEq

/-- The output row `output` computes for a row `r` whose variable lookup
returned the value `v` (columns 8-10, `approxLCM.py` lines 107-110): units
purchased rounded to 3 places, ingredient cost rounded to 2 places, and the
per-ingredient waste computed from the already-rounded cost. -/
def derivedRow (s : ℚ) (r : Row) (v : ℚ) : OutRow :=
  ⟨round3 v, round2 (v * r.spb * r.cps),
   round2 (round2 (v * r.spb * r.cps) - s * r.cps)⟩

/-- The per-row loop of `output` (lines 106-110): each row looks up
`variables[int(row[1]) - 1]` in the combined variable-value list `vals`
(the `x` values followed by the `s` value), failing with `IndexError` when
the Python index is out of range. -/
def outRows (vals : List ℚ) (s : ℚ) : List Row → Except PyErr (List OutRow)
  | [] => .ok []
  | r :: rs =>
    match pyGet vals (r.index - 1) with
    | none => .error .indexError
    | some v => (outRows vals s rs).map (fun rest => derivedRow s r v :: rest)

/-- `output` (`approxLCM.py` lines 95-114): reads `s` off the last variable,
accumulates `mincost`, takes `waste` as the objective value, fills the
per-row fields, and attaches the summary to the first row. -/
def output (lines : List Row) (cps : List ℚ) (waste : ℚ) (vals : List ℚ) :
    Except PyErr (List OutRow × Summary) :=
  match pyGet vals (-1) with
  | none => .error .indexError
  | some s =>
    let mincost := cps.foldl (fun a c => a + s * c) 0
    let cost := waste + mincost
    match outRows vals s lines with
    | .error e => .error e
    | .ok rows =>
      match lines with
      | [] => .error .indexError
      | _ :: _ => .ok (rows, ⟨s, round2 cost, round2 waste⟩)

/-- The pipeline of `main` (lines 131-135) without the CSV adapters: build
the model, let the external solver produce `sol`, then derive the output.
`value(obj_fn)` is the objective evaluated at the solved values.  The
solver's `status` is never consulted anywhere. -/
def pipeline (lines : List Row) (sol : Solution) : Except PyErr (List OutRow × Summary) :=
  match runLPP lines with
  | .error e => .error e
  | .ok p =>
    output lines p.cps (evalE p.n p.objective sol.xvals sol.sval) (sol.xvals ++ [sol.sval])

/-- All constraints of the built model hold at an assignment. -/
def SatAll (p : Problem) (xs : List ℚ) (s : ℚ) : Prop :=
  ∀ c ∈ p.constraints, Constr.holds p.n c xs s

/-- A feasible point of the MILP: values for all `n` variables, every `x`
value a nonnegative integer (the integer category with lower bound 0), `s`
within its lower bound 0, and all constraints satisfied. -/
def FeasibleSol (p : Problem) (xs : List ℚ) (s : ℚ) : Prop :=
  xs.length = p.n ∧ (∀ i, i < p.n → ∃ k : ℕ, xs.getD i 0 = (k : ℚ)) ∧
    0 ≤ s ∧ SatAll p xs s

/-- Objective value at an assignment. -/
def objVal (p : Problem) (xs : List ℚ) (s : ℚ) : ℚ :=
  evalE p.n p.objective xs s

/-- An optimal solution: feasible, and of minimal objective value among all
feasible points (the model is a minimization). -/
def IsOptimal (p : Problem) (xs : List ℚ) (s : ℚ) : Prop :=
  FeasibleSol p xs s ∧ ∀ ys t, FeasibleSol p ys t → objVal p xs s ≤ objVal p ys t

/-! ### Helper lemmas: the folds of `runLPP` and `output` -/

theorem foldl_add_eq_sum (l : List ℚ) (a : ℚ) : l.foldl (· + ·) a = a + l.sum := by
  induction l generalizing a with
  | nil => simp
  | cons x t ih => simp only [List.foldl_cons, List.sum_cons, ih]; ring

theorem foldl_mincost_eq (s : ℚ) (l : List ℚ) (a : ℚ) :
    l.foldl (fun b c => b + s * c) a = a + s * l.sum := by
  induction l generalizing a with
  | nil => simp
  | cons x t ih => simp only [List.foldl_cons, List.sum_cons, ih]; ring

theorem Expr.add_xcoef (e f : Expr) (j : ℕ) :
    (e.add f).xcoef j = e.xcoef j + f.xcoef j := rfl

theorem Expr.add_scoef (e f : Expr) : (e.add f).scoef = e.scoef + f.scoef := rfl

theorem Expr.add_const (e f : Expr) : (e.add f).const = e.const + f.const := rfl

theorem Expr.sub_xcoef (e f : Expr) (j : ℕ) :
    (e.sub f).xcoef j = e.xcoef j - f.xcoef j := rfl

theorem Expr.sub_scoef (e f : Expr) : (e.sub f).scoef = e.scoef - f.scoef := rfl

theorem Expr.sub_const (e f : Expr) : (e.sub f).const = e.const - f.const := rfl

theorem xvar_xcoef (i : ℕ) (c : ℚ) (j : ℕ) :
    (xvar i c).xcoef j = if j = i then c else 0 := rfl

theorem svar_xcoef (c : ℚ) (j : ℕ) : (svar c).xcoef j = 0 := rfl

theorem constE_xcoef (c : ℚ) (j : ℕ) : (constE c).xcoef j = 0 := rfl

theorem objFold_xcoef (c : ℕ → ℚ) (b : Expr) (n j : ℕ) :
    ((List.range n).foldl (fun e i => e.add (xvar i (c i))) b).xcoef j
      = b.xcoef j + if j < n then c j else 0 := by
  induction n with
  | zero => simp
  | succ n ih =>
    rw [List.range_succ, List.foldl_append, List.foldl_cons, List.foldl_nil,
      Expr.add_xcoef, ih, xvar_xcoef]
    by_cases h : j = n
    · subst h
      simp [Nat.lt_irrefl, Nat.lt_succ_self]
    · by_cases h2 : j < n
      · have h3 : j < n + 1 := Nat.lt_succ_of_lt h2
        simp [h, h2, h3]
      · have h3 : ¬ j < n + 1 := by omega
        simp [h, h2, h3]

theorem objFold_scoef (c : ℕ → ℚ) (b : Expr) (n : ℕ) :
    ((List.range n).foldl (fun e i => e.add (xvar i (c i))) b).scoef = b.scoef := by
  induction n with
  | zero => simp
  | succ n ih =>
    rw [List.range_succ, List.foldl_append, List.foldl_cons, List.foldl_nil,
      Expr.add_scoef, ih]
    show b.scoef + (0 : ℚ) = b.scoef
    ring

theorem objFold_const (c : ℕ → ℚ) (b : Expr) (n : ℕ) :
    ((List.range n).foldl (fun e i => e.add (xvar i (c i))) b).const = b.const := by
  induction n with
  | zero => simp
  | succ n ih =>
    rw [List.range_succ, List.foldl_append, List.foldl_cons, List.foldl_nil,
      Expr.add_const, ih]
    show b.const + (0 : ℚ) = b.const
    ring

/-! ### Helper lemmas: the objective built by `buildProblem` -/

theorem build_objective_xcoef (first : Row) (rest : List Row) (j : ℕ) :
    (buildProblem first rest).objective.xcoef j
      = if j < (first :: rest).length then
          ((first :: rest).map Row.cps).getD j 0 * ((first :: rest).map Row.spb).getD j 0
        else 0 := by
  show (Expr.sub _ _).xcoef j = _
  rw [Expr.sub_xcoef, svar_xcoef, objFold_xcoef, xvar_xcoef]
  simp

theorem build_objective_scoef (first : Row) (rest : List Row) :
    (buildProblem first rest).objective.scoef = -((first :: rest).map Row.cps).sum := by
  show (Expr.sub _ _).scoef = _
  rw [Expr.sub_scoef, objFold_scoef]
  show (xvar 0 0).scoef - (svar _).scoef = _
  show (0 : ℚ) - ((first :: rest).map Row.cps).foldl (· + ·) 0 = _
  rw [foldl_add_eq_sum]
  ring

theorem build_objective_const (first : Row) (rest : List Row) :
    (buildProblem first rest).objective.const = 0 := by
  show (Expr.sub _ _).const = _
  rw [Expr.sub_const, objFold_const]
  show (0 : ℚ) - 0 = 0
  ring

theorem evalE_build_objective (first : Row) (rest : List Row) (xs : List ℚ) (s : ℚ) :
    evalE (buildProblem first rest).n (buildProblem first rest).objective xs s
      = (∑ i ∈ Finset.range (first :: rest).length,
          ((first :: rest).map Row.cps).getD i 0 * ((first :: rest).map Row.spb).getD i 0
            * xs.getD i 0)
        - s * ((first :: rest).map Row.cps).sum := by
  have hn : (buildProblem first rest).n = (first :: rest).length := rfl
  rw [evalE, hn, build_objective_scoef, build_objective_const]
  rw [Finset.sum_congr rfl (fun i hi => by
    rw [build_objective_xcoef, if_pos (Finset.mem_range.mp hi)])]
  ring

/-! ### Helper lemmas: the constraints built by `buildProblem` -/

theorem holds_ge (n : ℕ) (e : Expr) (xs : List ℚ) (s : ℚ) :
    Constr.holds n ⟨e, .ge⟩ xs s ↔ 0 ≤ evalE n e xs s := Iff.rfl

theorem holds_le (n : ℕ) (e : Expr) (xs : List ℚ) (s : ℚ) :
    Constr.holds n ⟨e, .le⟩ xs s ↔ evalE n e xs s ≤ 0 := Iff.rfl

theorem build_constraints (f : Row) (r : List Row) :
    (buildProblem f r).constraints =
      [⟨(svar 1).sub (constE f.minS), .ge⟩, ⟨(svar 1).sub (constE f.maxS), .le⟩]
        ++ (List.range (f :: r).length).map
            (fun v => ⟨(xvar v (((f :: r).map Row.spb).getD v 0)).sub (svar 1), .ge⟩) := rfl

theorem evalE_range_constr (n : ℕ) (a m : ℚ) (xs : List ℚ) (s : ℚ) :
    evalE n ((svar a).sub (constE m)) xs s = a * s - m := by
  rw [evalE]
  rw [Finset.sum_congr rfl (fun i _ => by
    rw [Expr.sub_xcoef, svar_xcoef, constE_xcoef, sub_zero, zero_mul])]
  rw [Finset.sum_const_zero]
  show 0 + (a - 0) * s + (0 - m) = a * s - m
  ring

theorem evalE_block_constr (n v : ℕ) (hv : v < n) (a : ℚ) (xs : List ℚ) (s : ℚ) :
    evalE n ((xvar v a).sub (svar 1)) xs s = a * xs.getD v 0 - s := by
  rw [evalE]
  rw [Finset.sum_congr rfl (fun i _ => by
    rw [Expr.sub_xcoef, xvar_xcoef, svar_xcoef, sub_zero, ite_mul, zero_mul])]
  rw [Finset.sum_ite_eq' (Finset.range n) v (fun i => a * xs.getD i 0)]
  rw [if_pos (Finset.mem_range.mpr hv)]
  show a * xs.getD v 0 + (0 - 1) * s + (0 - 0) = a * xs.getD v 0 - s
  ring

theorem satAll_build_iff (f : Row) (r : List Row) (xs : List ℚ) (s : ℚ) :
    SatAll (buildProblem f r) xs s ↔
      (f.minS ≤ s ∧ s ≤ f.maxS ∧
        ∀ v, v < (f :: r).length →
          s ≤ ((f :: r).map Row.spb).getD v 0 * xs.getD v 0) := by
  have hn : (buildProblem f r).n = (f :: r).length := rfl
  rw [SatAll, build_constraints]
  constructor
  · intro h
    refine ⟨?_, ?_, ?_⟩
    · have h1 := h ⟨(svar 1).sub (constE f.minS), .ge⟩ (by simp)
      rw [holds_ge, hn, evalE_range_constr] at h1
      linarith
    · have h1 := h ⟨(svar 1).sub (constE f.maxS), .le⟩ (by simp)
      rw [holds_le, hn, evalE_range_constr] at h1
      linarith
    · intro v hv
      have h1 := h ⟨(xvar v (((f :: r).map Row.spb).getD v 0)).sub (svar 1), .ge⟩ (by
        apply List.mem_append_right
        exact List.mem_map.mpr ⟨v, List.mem_range.mpr hv, rfl⟩)
      rw [holds_ge, hn, evalE_block_constr _ _ hv] at h1
      linarith
  · rintro ⟨h1, h2, h3⟩ c hc
    rcases List.mem_append.mp hc with hc' | hc'
    · rcases List.mem_cons.mp hc' with rfl | hc''
      · rw [holds_ge, hn, evalE_range_constr]
        linarith
      · rcases List.mem_cons.mp hc'' with rfl | hc'''
        · rw [holds_le, hn, evalE_range_constr]
          linarith
        · exact absurd hc''' (List.not_mem_nil _)
    · obtain ⟨v, hv, rfl⟩ := List.mem_map.mp hc'
      have hv' := List.mem_range.mp hv
      rw [holds_ge, hn, evalE_block_constr _ _ hv']
      have := h3 v hv'
      linarith

/-! ### Helper lemmas: Python list lookup -/

theorem pyGet_neg_one (l : List ℚ) (a : ℚ) : pyGet (l ++ [a]) (-1) = some a := by
  rw [pyGet]
  rw [if_neg (by norm_num)]
  have h1 : ((-(-1) : ℤ)).toNat = 1 := rfl
  rw [if_pos (by rw [h1]; simp)]
  rw [h1]
  simp only [List.length_append, List.length_singleton, Nat.add_sub_cancel]
  exact List.getElem?_concat_length l a

theorem pyGet_natCast (l : List ℚ) (i : ℕ) : pyGet l (i : ℤ) = l[i]? := by
  rw [pyGet, if_pos (Int.natCast_nonneg i), Int.toNat_natCast]

/-! ### Helper lemmas: the per-row output loop -/

theorem outRows_cons_eq (vals : List ℚ) (s : ℚ) (r : Row) (rs : List Row) :
    outRows vals s (r :: rs) = (match pyGet vals (r.index - 1) with
      | none => .error .indexError
      | some v => (outRows vals s rs).map (fun rest => derivedRow s r v :: rest)) := rfl

theorem outRows_eq_map (vals : List ℚ) (s : ℚ) (lines : List Row)
    (h : ∀ r ∈ lines, (pyGet vals (r.index - 1)).isSome) :
    outRows vals s lines = .ok (lines.map (fun r =>
      derivedRow s r ((pyGet vals (r.index - 1)).getD 0))) := by
  induction lines with
  | nil => rfl
  | cons r rs ih =>
    obtain ⟨v, hv⟩ := Option.isSome_iff_exists.mp (h r (List.mem_cons_self r rs))
    rw [List.map_cons, outRows_cons_eq, hv,
      ih (fun q hq => h q (List.mem_cons_of_mem _ hq))]
    rfl

theorem outRows_ok_iff (vals : List ℚ) (s : ℚ) (lines : List Row) :
    (∃ l, outRows vals s lines = .ok l) ↔
      ∀ r ∈ lines, (pyGet vals (r.index - 1)).isSome = true := by
  induction lines with
  | nil =>
    constructor
    · intro _ q hq
      exact absurd hq (List.not_mem_nil q)
    · intro _
      exact ⟨[], rfl⟩
  | cons r rs ih =>
    constructor
    · rintro ⟨l, hl⟩
      rw [outRows_cons_eq] at hl
      cases hv : pyGet vals (r.index - 1) with
      | none =>
        rw [hv] at hl
        cases hl
      | some v =>
        rw [hv] at hl
        intro q hq
        rcases List.mem_cons.mp hq with rfl | hq'
        · rw [hv]
          rfl
        · cases hrs : outRows vals s rs with
          | error e =>
            rw [hrs] at hl
            cases hl
          | ok l' => exact ih.mp ⟨l', hrs⟩ q hq'
    · intro h
      obtain ⟨v, hv⟩ := Option.isSome_iff_exists.mp (h r (List.mem_cons_self r rs))
      obtain ⟨l', hl'⟩ := ih.mpr (fun q hq => h q (List.mem_cons_of_mem _ hq))
      exact ⟨derivedRow s r v :: l', by rw [outRows_cons_eq, hv, hl']; rfl⟩

/-! ### Helper lemmas: rounding -/

theorem abs_round2_sub_le (q : ℚ) : |round2 q - q| ≤ 1 / 200 := by
  have h := abs_sub_round (q * 100)
  rw [abs_sub_comm] at h
  have e : round2 q - q = (((round (q * 100) : ℤ) : ℚ) - q * 100) / 100 := by
    rw [round2]
    ring
  rw [e, abs_div, abs_of_pos (by norm_num : (0 : ℚ) < 100)]
  linarith

theorem round2_mono {a b : ℚ} (h : a ≤ b) : round2 a ≤ round2 b := by
  rw [round2, round2]
  have h1 : round (a * 100) ≤ round (b * 100) := by
    rw [round_eq, round_eq]
    exact Int.floor_le_floor (by linarith)
  have h2 : ((round (a * 100) : ℤ) : ℚ) ≤ ((round (b * 100) : ℤ) : ℚ) :=
    Int.cast_le.mpr h1
  linarith

/-! ### Helper lemmas: `output` and `pipeline` on well-indexed input -/

theorem output_eq (f : Row) (r : List Row) (cps : List ℚ) (waste : ℚ)
    (xv : List ℚ) (sv : ℚ)
    (hrows : ∀ q ∈ f :: r, (pyGet (xv ++ [sv]) (q.index - 1)).isSome) :
    output (f :: r) cps waste (xv ++ [sv]) = .ok
      ((f :: r).map (fun q => derivedRow sv q ((pyGet (xv ++ [sv]) (q.index - 1)).getD 0)),
       ⟨sv, round2 (waste + sv * cps.sum), round2 waste⟩) := by
  unfold output
  rw [pyGet_neg_one]
  dsimp only
  rw [outRows_eq_map _ _ _ hrows, foldl_mincost_eq, zero_add]

theorem pipeline_identity (first : Row) (rest : List Row) (sol : Solution)
    (hlen : sol.xvals.length = (first :: rest).length)
    (hidx : ∀ (i : ℕ) (h : i < (first :: rest).length),
      ((first :: rest).get ⟨i, h⟩).index = (i : ℤ) + 1) :
    pipeline (first :: rest) sol = .ok
      (List.zipWith (fun q v => derivedRow sol.sval q v) (first :: rest) sol.xvals,
       ⟨sol.sval,
        round2 (objVal (buildProblem first rest) sol.xvals sol.sval
          + sol.sval * ((first :: rest).map Row.cps).sum),
        round2 (objVal (buildProblem first rest) sol.xvals sol.sval)⟩) := by
  have key : ∀ (i : ℕ) (h : i < (first :: rest).length),
      pyGet (sol.xvals ++ [sol.sval]) (((first :: rest).get ⟨i, h⟩).index - 1)
        = some (sol.xvals.get ⟨i, by rw [hlen]; exact h⟩) := by
    intro i h
    rw [hidx i h]
    have e : ((i : ℤ) + 1 - 1) = (i : ℤ) := by ring
    rw [e, pyGet_natCast, List.getElem?_append_left (by rw [hlen]; exact h),
      List.getElem?_eq_getElem (by rw [hlen]; exact h), List.get_eq_getElem]
  have hrows : ∀ q ∈ first :: rest,
      (pyGet (sol.xvals ++ [sol.sval]) (q.index - 1)).isSome := by
    intro q hq
    obtain ⟨⟨i, h⟩, rfl⟩ := List.mem_iff_get.mp hq
    rw [key i h]
    rfl
  show output (first :: rest) (buildProblem first rest).cps
      (evalE (buildProblem first rest).n (buildProblem first rest).objective
        sol.xvals sol.sval)
      (sol.xvals ++ [sol.sval]) = _
  rw [output_eq first rest _ _ _ _ hrows]
  refine congrArg Except.ok (Prod.ext ?_ rfl)
  apply List.ext_getElem
  · rw [List.length_map, List.length_zipWith, hlen, Nat.min_self]
  · intro i h1 h2
    rw [List.getElem_map, List.getElem_zipWith]
    have hi : i < (first :: rest).length := by
      rw [List.length_map] at h1
      exact h1
    have := key i hi
    rw [List.get_eq_getElem] at this
    rw [this]
    rfl

/-! ### Field equations of `buildProblem` -/

theorem build_n (f : Row) (r : List Row) : (buildProblem f r).n = (f :: r).length := rfl

theorem build_spb (f : Row) (r : List Row) :
    (buildProblem f r).spb = (f :: r).map Row.spb := rfl

theorem build_cps (f : Row) (r : List Row) :
    (buildProblem f r).cps = (f :: r).map Row.cps := rfl

theorem build_minServe (f : Row) (r : List Row) : (buildProblem f r).minServe = f.minS := rfl

theorem build_maxServe (f : Row) (r : List Row) : (buildProblem f r).maxServe = f.maxS := rfl

theorem build_xVars (f : Row) (r : List Row) :
    (buildProblem f r).xVars = (f :: r).map
      (fun q => VarSpec.mk ("x_" ++ toString q.index) (some 0) none .integer) := rfl

theorem build_sVar (f : Row) (r : List Row) :
    (buildProblem f r).sVar = ⟨"s", some 0, none, .continuous⟩ := rfl

theorem runLPP_cons (f : Row) (r : List Row) :
    runLPP (f :: r) = .ok (buildProblem f r) := rfl

/-! ### Claims -/

/-- C1: for every non-empty ingredient sequence, the objective installed by
the Model Builder (and handed to the solver to minimize) is exactly
`Σ_i x_i * servingsPerBlock_i * costPerServing_i − s * Σ_i costPerServing_i`:
a linear expression whose `x_i` coefficients are the constants
`servingsPerBlock_i * costPerServing_i`, whose `s` coefficient is the negated
total per-serving cost, and which has no constant term. -/
theorem C1_objective (lines : List Row) (p : Problem) (hp : runLPP lines = .ok p) :
    (∀ j, j < p.n → p.objective.xcoef j = p.spb.getD j 0 * p.cps.getD j 0) ∧
    p.objective.scoef = -p.cps.sum ∧
    p.objective.const = 0 ∧
    (∀ xs s, evalE p.n p.objective xs s =
      (∑ i ∈ Finset.range p.n, xs.getD i 0 * p.spb.getD i 0 * p.cps.getD i 0)
        - s * p.cps.sum) := by
  cases lines with
  | nil => cases hp
  | cons f r =>
    rw [runLPP_cons] at hp
    injection hp with h
    subst h
    refine ⟨?_, ?_, ?_, ?_⟩
    · intro j hj
      rw [build_n] at hj
      rw [build_spb, build_cps, build_objective_xcoef, if_pos hj]
      exact mul_comm _ _
    · rw [build_cps, build_objective_scoef]
    · exact build_objective_const f r
    · intro xs s
      rw [evalE_build_objective, build_n, build_spb, build_cps]
      rw [Finset.sum_congr rfl (fun i _ => by ring :
        ∀ i ∈ Finset.range (f :: r).length,
          ((f :: r).map Row.cps).getD i 0 * ((f :: r).map Row.spb).getD i 0 * xs.getD i 0
          = xs.getD i 0 * ((f :: r).map Row.spb).getD i 0 * ((f :: r).map Row.cps).getD i 0)]

/-- C1 witness: at the single-ingredient input with servingsPerBlock 2 and
costPerServing 3, the objective's `x_0` coefficient is the constant `2 * 3`
and its `s` coefficient is `-3`. -/
theorem C1_witness :
    (buildProblem ⟨"a", 1, 2, 3, 0, 10⟩ []).objective.xcoef 0 = 2 * 3 ∧
    (buildProblem ⟨"a", 1, 2, 3, 0, 10⟩ []).objective.scoef = -3 := by
  have h := C1_objective [⟨"a", 1, 2, 3, 0, 10⟩] (buildProblem ⟨"a", 1, 2, 3, 0, 10⟩ []) rfl
  constructor
  · have h1 := h.1 0 (by rw [build_n]; norm_num)
    rw [h1, build_spb, build_cps]
    norm_num
  · have h2 := h.2.1
    rw [h2, build_cps]
    norm_num

/-- C2: for every non-empty ingredient sequence and feasible range, the
built model has one integer variable per ingredient with domain `[0, +∞)`
and the continuous variable `s` with domain `[0, +∞)`, and its constraint
set (two range constraints plus one sufficiency constraint per ingredient)
is satisfied at an assignment exactly when `minServings ≤ s`,
`s ≤ maxServings` and `x_i * servingsPerBlock_i ≥ s` for every ingredient. -/
theorem C2_constraints (lines : List Row) (p : Problem) (hp : runLPP lines = .ok p)
    (hrange : p.minServe ≤ p.maxServe) :
    p.xVars = lines.map
      (fun q => VarSpec.mk ("x_" ++ toString q.index) (some 0) none .integer) ∧
    p.sVar = ⟨"s", some 0, none, .continuous⟩ ∧
    p.constraints.length = 2 + p.n ∧
    (∀ xs s, SatAll p xs s ↔
      (p.minServe ≤ s ∧ s ≤ p.maxServe ∧
        ∀ v, v < p.n → s ≤ p.spb.getD v 0 * xs.getD v 0)) := by
  cases lines with
  | nil => cases hp
  | cons f r =>
    rw [runLPP_cons] at hp
    injection hp with h
    subst h
    refine ⟨build_xVars f r, build_sVar f r, ?_, ?_⟩
    · rw [build_constraints]
      simp only [List.length_append, List.length_cons, List.length_nil,
        List.length_map, List.length_range, build_n]
    · intro xs s
      rw [satAll_build_iff, build_minServe, build_maxServe, build_n, build_spb]

/-- C2 witness: on the single-ingredient input with servingsPerBlock 2 and
range `[0, 10]`, the assignment `x = [5]`, `s = 2` satisfies every
constraint of the built model. -/
theorem C2_witness :
    SatAll (buildProblem ⟨"a", 1, 2, 3, 0, 10⟩ []) [5] 2 := by
  have h := C2_constraints [⟨"a", 1, 2, 3, 0, 10⟩] (buildProblem ⟨"a", 1, 2, 3, 0, 10⟩ [])
    rfl (by rw [build_minServe, build_maxServe]; norm_num)
  refine (h.2.2.2 [5] 2).mpr ⟨?_, ?_, ?_⟩
  · rw [build_minServe]
    norm_num
  · rw [build_maxServe]
    norm_num
  · intro v hv
    rw [build_n] at hv
    norm_num at hv
    subst hv
    rw [build_spb]
    norm_num

/-- C3 counterexample: on a range-infeasible input (min 5 > max 3) where the
solver reports `infeasible`, the pipeline does NOT halt: it still runs the
Result Deriver and produces full per-row output and a summary. -/
theorem C3_counterexample :
    pipeline [⟨"a", 1, 2, 1, 5, 3⟩] ⟨[3], 1, .infeasible⟩ =
      .ok ([⟨3, 6, 5⟩], ⟨1, 6, 5⟩) := by
  have h := pipeline_identity ⟨"a", 1, 2, 1, 5, 3⟩ [] ⟨[3], 1, .infeasible⟩
    (by norm_num)
    (by
      intro i hi
      simp only [List.length_cons, List.length_nil] at hi
      have hi0 : i = 0 := by omega
      subst hi0
      simp)
  rw [h]
  norm_num [derivedRow, objVal, evalE_build_objective, Finset.sum_range_one,
    round2, round3, round_eq]

/-- C3 amended: the pipeline never inspects the solver status: for any two
runs whose solutions differ only in the reported status, the derived output
is identical, so the Result Deriver runs (and produces output) even on
Infeasible, Unbounded or SolverError statuses. -/
theorem C3_status_ignored (lines : List Row) (xv : List ℚ) (sv : ℚ) (st st' : Status) :
    pipeline lines ⟨xv, sv, st⟩ = pipeline lines ⟨xv, sv, st'⟩ := rfl

/-- C5 counterexample: on an input whose first row has minServings 5 >
maxServings 3, the Model Builder does not fail with any error: `runLPP`
completes model construction and hands the model to the solver. -/
theorem C5_counterexample :
    (⟨"a", 1, 2, 1, 5, 3⟩ : Row).maxS < (⟨"a", 1, 2, 1, 5, 3⟩ : Row).minS ∧
    runLPP [⟨"a", 1, 2, 1, 5, 3⟩] = .ok (buildProblem ⟨"a", 1, 2, 1, 5, 3⟩ []) :=
  ⟨by norm_num, rfl⟩

/-- C5 amended: when minServings > maxServings the Model Builder performs no
validation: it builds the model anyway, and the two range constraints it
installs are jointly unsatisfiable, so the model is infeasible and the
failure is left for the solver to report rather than raised as an
InvalidRange error. -/
theorem C5_no_validation (first : Row) (rest : List Row) (h : first.maxS < first.minS) :
    ∃ p, runLPP (first :: rest) = .ok p ∧ ∀ xs s, ¬ SatAll p xs s := by
  refine ⟨buildProblem first rest, rfl, ?_⟩
  intro xs s hsat
  rw [satAll_build_iff] at hsat
  obtain ⟨h1, h2, _⟩ := hsat
  linarith

/-- C5 witness: the inverted range `[5, 3]` is accepted by the builder and
yields a model with no satisfying assignment. -/
theorem C5_witness :
    (⟨"b", 1, 2, 1, 5, 3⟩ : Row).maxS < (⟨"b", 1, 2, 1, 5, 3⟩ : Row).minS ∧
    ∃ p, runLPP [(⟨"b", 1, 2, 1, 5, 3⟩ : Row)] = .ok p ∧ ∀ xs s, ¬ SatAll p xs s :=
  ⟨by norm_num, C5_no_validation ⟨"b", 1, 2, 1, 5, 3⟩ [] (by norm_num)⟩

/-- C6 counterexample: an ingredient with servingsPerBlock = -1 ≤ 0 does not
make the Model Builder fail with any error: the model is built as usual. -/
theorem C6_counterexample :
    (⟨"a", 1, -1, 1, 0, 5⟩ : Row).spb ≤ 0 ∧
    runLPP [⟨"a", 1, -1, 1, 0, 5⟩] = .ok (buildProblem ⟨"a", 1, -1, 1, 0, 5⟩ []) :=
  ⟨by norm_num, rfl⟩

/-- C6 amended: the Model Builder performs no check on servingsPerBlock: the
model is built with the data exactly as given, and a nonpositive
servingsPerBlock merely forces `s ≤ 0` in every feasible point (making a
positive minServings infeasible), detected by the solver rather than
reported as InvalidIngredientData. -/
theorem C6_no_validation (first : Row) (rest : List Row) (i : ℕ)
    (hi : i < (first :: rest).length)
    (hneg : ((first :: rest).getD i ⟨"", 0, 0, 0, 0, 0⟩).spb ≤ 0) :
    ∃ p, runLPP (first :: rest) = .ok p ∧ p.spb = (first :: rest).map Row.spb ∧
      ∀ xs s, FeasibleSol p xs s → s ≤ 0 := by
  refine ⟨buildProblem first rest, rfl, rfl, ?_⟩
  rintro xs s ⟨hlen, hint, hs0, hsat⟩
  rw [satAll_build_iff] at hsat
  obtain ⟨_, _, hblock⟩ := hsat
  have hb := hblock i hi
  have hspb : ((first :: rest).map Row.spb).getD i 0
      = ((first :: rest).getD i ⟨"", 0, 0, 0, 0, 0⟩).spb := by
    rw [List.getD_eq_getElem _ _ (by simpa using hi), List.getD_eq_getElem _ _ hi,
      List.getElem_map Row.spb]
  obtain ⟨k, hk⟩ := hint i (by rw [build_n]; exact hi)
  have hx0 : 0 ≤ xs.getD i 0 := by
    rw [hk]
    positivity
  have hprod : ((first :: rest).map Row.spb).getD i 0 * xs.getD i 0 ≤ 0 := by
    rw [hspb]
    exact mul_nonpos_of_nonpos_of_nonneg hneg hx0
  linarith

/-- C6 witness: on the single-ingredient input with servingsPerBlock -1, the
builder accepts the data and every feasible point has `s ≤ 0`. -/
theorem C6_witness :
    (0 : ℕ) < ([⟨"a", 1, -1, 1, 0, 5⟩] : List Row).length ∧
    (([⟨"a", 1, -1, 1, 0, 5⟩] : List Row).getD 0 ⟨"", 0, 0, 0, 0, 0⟩).spb ≤ 0 ∧
    (∃ p, runLPP [(⟨"a", 1, -1, 1, 0, 5⟩ : Row)] = .ok p ∧
      p.spb = [(⟨"a", 1, -1, 1, 0, 5⟩ : Row)].map Row.spb ∧
      ∀ xs s, FeasibleSol p xs s → s ≤ 0) :=
  ⟨by norm_num, by norm_num [List.getD_cons_zero],
   C6_no_validation ⟨"a", 1, -1, 1, 0, 5⟩ [] 0 (by norm_num)
     (by norm_num [List.getD_cons_zero])⟩

/-- C10: on the empty ingredient sequence the pipeline fails with the Python
IndexError raised while reading the feasible-range bounds off the first row:
no model is built, and no validation error kind is produced (the code
defines none). -/
theorem C10_empty_input (sol : Solution) :
    runLPP ([] : List Row) = .error PyErr.indexError ∧
    pipeline [] sol = .error PyErr.indexError :=
  ⟨rfl, rfl⟩

theorem output_ok_iff (f : Row) (r : List Row) (cps : List ℚ) (waste : ℚ)
    (xv : List ℚ) (sv : ℚ) :
    (∃ out, output (f :: r) cps waste (xv ++ [sv]) = .ok out) ↔
      ∀ q ∈ f :: r, (pyGet (xv ++ [sv]) (q.index - 1)).isSome = true := by
  unfold output
  rw [pyGet_neg_one]
  dsimp only
  rw [← outRows_ok_iff (xv ++ [sv]) sv (f :: r)]
  constructor
  · rintro ⟨out, hout⟩
    cases hrs : outRows (xv ++ [sv]) sv (f :: r) with
    | error e =>
      rw [hrs] at hout
      cases hout
    | ok l => exact ⟨l, rfl⟩
  · rintro ⟨l, hl⟩
    rw [hl]
    exact ⟨_, rfl⟩

/-- C7 counterexample: on an index column that is not a 1..N permutation
(two rows both carrying index 1), the pipeline fails with no error at all:
it produces full output in which the second row's figures are computed from
the first row's variable value 3 (the solver gave `x_2` the value 4). -/
theorem C7_counterexample :
    pipeline [⟨"a", 1, 1, 1, 0, 10⟩, ⟨"b", 1, 2, 1, 0, 10⟩] ⟨[3, 4], 2, .optimal⟩ =
      .ok ([⟨3, 3, 1⟩, ⟨3, 6, 4⟩], ⟨2, 11, 7⟩) := by
  have hrows : ∀ q ∈ [(⟨"a", 1, 1, 1, 0, 10⟩ : Row), ⟨"b", 1, 2, 1, 0, 10⟩],
      (pyGet (([3, 4] : List ℚ) ++ [2]) (q.index - 1)).isSome := by
    intro q hq
    rcases List.mem_cons.mp hq with rfl | hq'
    · simp [pyGet]
    · rcases List.mem_cons.mp hq' with rfl | hq''
      · simp [pyGet]
      · exact absurd hq'' (List.not_mem_nil q)
  have h0 : pipeline [⟨"a", 1, 1, 1, 0, 10⟩, ⟨"b", 1, 2, 1, 0, 10⟩] ⟨[3, 4], 2, .optimal⟩
      = output [⟨"a", 1, 1, 1, 0, 10⟩, ⟨"b", 1, 2, 1, 0, 10⟩]
          (buildProblem ⟨"a", 1, 1, 1, 0, 10⟩ [⟨"b", 1, 2, 1, 0, 10⟩]).cps
          (evalE (buildProblem ⟨"a", 1, 1, 1, 0, 10⟩ [⟨"b", 1, 2, 1, 0, 10⟩]).n
            (buildProblem ⟨"a", 1, 1, 1, 0, 10⟩ [⟨"b", 1, 2, 1, 0, 10⟩]).objective [3, 4] 2)
          (([3, 4] : List ℚ) ++ [2]) := rfl
  rw [h0, output_eq _ _ _ _ _ _ hrows]
  norm_num [derivedRow, evalE_build_objective, build_cps, Finset.sum_range_succ,
    Finset.sum_range_one, List.map_cons, List.sum_cons, pyGet, round2, round3, round_eq]

/-- C7 amended: no upfront index validation exists and no InvalidIndex error
is defined: the Result Deriver resolves each row's variable at output time by
Python list lookup `variables[int(row[1]) - 1]`, so the pipeline succeeds
exactly when every row's offset lands inside the variable-value list — even
when the indices contain duplicates or gaps (then the output is tied to the
wrong variables) — and an out-of-range index surfaces only as a lookup-time
IndexError. -/
theorem C7_lookup_time (lines : List Row) (sol : Solution) (hne : lines ≠ []) :
    (∃ out, pipeline lines sol = .ok out) ↔
      ∀ q ∈ lines, (pyGet (sol.xvals ++ [sol.sval]) (q.index - 1)).isSome = true := by
  obtain ⟨f, r, rfl⟩ := List.exists_cons_of_ne_nil hne
  exact output_ok_iff f r (buildProblem f r).cps
    (evalE (buildProblem f r).n (buildProblem f r).objective sol.xvals sol.sval)
    sol.xvals sol.sval

/-- C7 witness: the duplicate-index input is non-empty, all its lookups are
in range, and accordingly the pipeline produces output (no InvalidIndex). -/
theorem C7_witness :
    ([⟨"a", 1, 1, 1, 0, 10⟩, ⟨"b", 1, 2, 1, 0, 10⟩] : List Row) ≠ [] ∧
    ((∃ out, pipeline [⟨"a", 1, 1, 1, 0, 10⟩, ⟨"b", 1, 2, 1, 0, 10⟩]
        ⟨[3, 4], 2, .optimal⟩ = .ok out) ↔
      ∀ q ∈ ([⟨"a", 1, 1, 1, 0, 10⟩, ⟨"b", 1, 2, 1, 0, 10⟩] : List Row),
        (pyGet (([3, 4] : List ℚ) ++ [2]) (q.index - 1)).isSome = true) :=
  ⟨by simp,
   C7_lookup_time [⟨"a", 1, 1, 1, 0, 10⟩, ⟨"b", 1, 2, 1, 0, 10⟩]
     ⟨[3, 4], 2, .optimal⟩ (by simp)⟩

theorem sum_map_zipWith (g : OutRow → ℚ) (h : Row → ℚ → OutRow) (l : List Row)
    (m : List ℚ) (dl : Row) (hlen : m.length = l.length) :
    ((List.zipWith h l m).map g).sum
      = ∑ i ∈ Finset.range l.length, g (h (l.getD i dl) (m.getD i 0)) := by
  induction l generalizing m with
  | nil => simp
  | cons a l' ih =>
    cases m with
    | nil =>
      rw [List.length_nil, List.length_cons] at hlen
      exact absurd hlen (by omega)
    | cons b m' =>
      rw [List.zipWith_cons_cons, List.map_cons, List.sum_cons, List.length_cons,
        Finset.sum_range_succ', ih m' (by simpa using hlen)]
      simp only [List.getD_cons_succ, List.getD_cons_zero]
      ring

theorem round2_sum_close (n : ℕ) (c : ℕ → ℚ) (hn : 1 ≤ n) :
    |round2 (∑ i ∈ Finset.range n, c i) - ∑ i ∈ Finset.range n, round2 (c i)|
      ≤ (n : ℚ) * (1 / 100) := by
  have h1 : |round2 (∑ i ∈ Finset.range n, c i) - ∑ i ∈ Finset.range n, c i| ≤ 1 / 200 :=
    abs_round2_sub_le _
  have h2 : |(∑ i ∈ Finset.range n, c i) - ∑ i ∈ Finset.range n, round2 (c i)|
      ≤ (n : ℚ) * (1 / 200) := by
    rw [← Finset.sum_sub_distrib]
    calc |∑ i ∈ Finset.range n, (c i - round2 (c i))|
        ≤ ∑ i ∈ Finset.range n, |c i - round2 (c i)| := Finset.abs_sum_le_sum_abs _ _
      _ ≤ ∑ _i ∈ Finset.range n, (1 / 200 : ℚ) := Finset.sum_le_sum (fun i _ => by
            rw [abs_sub_comm]
            exact abs_round2_sub_le _)
      _ = (n : ℚ) * (1 / 200) := by
            rw [Finset.sum_const, Finset.card_range, nsmul_eq_mul]
  have hcast : (1 : ℚ) ≤ (n : ℚ) := by exact_mod_cast hn
  calc |round2 (∑ i ∈ Finset.range n, c i) - ∑ i ∈ Finset.range n, round2 (c i)|
      ≤ |round2 (∑ i ∈ Finset.range n, c i) - ∑ i ∈ Finset.range n, c i|
          + |(∑ i ∈ Finset.range n, c i) - ∑ i ∈ Finset.range n, round2 (c i)| :=
        abs_sub_le _ _ _
    _ ≤ 1 / 200 + (n : ℚ) * (1 / 200) := add_le_add h1 h2
    _ ≤ (n : ℚ) * (1 / 100) := by linarith

/-- C4: on every solved instance with a well-indexed input, the reported
totalCost is `round(waste + minCost, 2)` where `minCost = s * Σ_i cps_i` and
`waste` is the objective value at the solved point, and it differs from
`Σ_i costForIngredient_i` by at most 0.01 per ingredient. -/
theorem C4_totalCost (first : Row) (rest : List Row) (sol : Solution)
    (hlen : sol.xvals.length = (first :: rest).length)
    (hidx : ∀ i, i < (first :: rest).length →
      ((first :: rest).getD i ⟨"", 0, 0, 0, 0, 0⟩).index = (i : ℤ) + 1) :
    ∃ rows summary, pipeline (first :: rest) sol = .ok (rows, summary) ∧
      summary.totalCost = round2 (objVal (buildProblem first rest) sol.xvals sol.sval
        + sol.sval * ((first :: rest).map Row.cps).sum) ∧
      |summary.totalCost - (rows.map OutRow.cost).sum|
        ≤ (((first :: rest).length : ℚ)) * (1 / 100) := by
  have hidx' : ∀ (i : ℕ) (h : i < (first :: rest).length),
      ((first :: rest).get ⟨i, h⟩).index = (i : ℤ) + 1 := by
    intro i h
    have hh := hidx i h
    rw [List.getD_eq_getElem _ _ h] at hh
    rw [List.get_eq_getElem]
    exact hh
  have hpl := pipeline_identity first rest sol hlen hidx'
  refine ⟨_, _, hpl, rfl, ?_⟩
  have hT : objVal (buildProblem first rest) sol.xvals sol.sval
      + sol.sval * ((first :: rest).map Row.cps).sum
      = ∑ i ∈ Finset.range (first :: rest).length,
          ((first :: rest).map Row.cps).getD i 0 * ((first :: rest).map Row.spb).getD i 0
            * sol.xvals.getD i 0 := by
    rw [objVal, evalE_build_objective]
    ring
  have hS : ((List.zipWith (fun q v => derivedRow sol.sval q v) (first :: rest)
      sol.xvals).map OutRow.cost).sum
      = ∑ i ∈ Finset.range (first :: rest).length,
          round2 (((first :: rest).map Row.cps).getD i 0
            * ((first :: rest).map Row.spb).getD i 0 * sol.xvals.getD i 0) := by
    rw [sum_map_zipWith OutRow.cost _ _ _ ⟨"", 0, 0, 0, 0, 0⟩ hlen]
    refine Finset.sum_congr rfl (fun i hi => ?_)
    have hi' := Finset.mem_range.mp hi
    have hspb : ((first :: rest).map Row.spb).getD i 0
        = ((first :: rest).getD i ⟨"", 0, 0, 0, 0, 0⟩).spb := by
      rw [List.getD_eq_getElem _ _ (by simpa using hi'), List.getD_eq_getElem _ _ hi',
        List.getElem_map Row.spb]
    have hcps : ((first :: rest).map Row.cps).getD i 0
        = ((first :: rest).getD i ⟨"", 0, 0, 0, 0, 0⟩).cps := by
      rw [List.getD_eq_getElem _ _ (by simpa using hi'), List.getD_eq_getElem _ _ hi',
        List.getElem_map Row.cps]
    rw [hspb, hcps]
    exact congrArg round2 (by ring)
  show |round2 (objVal (buildProblem first rest) sol.xvals sol.sval
      + sol.sval * ((first :: rest).map Row.cps).sum)
      - ((List.zipWith (fun q v => derivedRow sol.sval q v) (first :: rest)
          sol.xvals).map OutRow.cost).sum|
      ≤ (((first :: rest).length : ℚ)) * (1 / 100)
  rw [hT, hS]
  exact round2_sum_close (first :: rest).length _ (by simp)

/-- C4 witness: on the single-ingredient instance with servingsPerBlock 2,
costPerServing 3, solved values `x = [2]`, `s = 4`, the totalCost identity
and the 0.01-per-term bound hold. -/
theorem C4_witness :
    ([(2 : ℚ)]).length = ([(⟨"a", 1, 2, 3, 0, 10⟩ : Row)]).length ∧
    (∀ i, i < ([(⟨"a", 1, 2, 3, 0, 10⟩ : Row)]).length →
      (([(⟨"a", 1, 2, 3, 0, 10⟩ : Row)]).getD i ⟨"", 0, 0, 0, 0, 0⟩).index = (i : ℤ) + 1) ∧
    (∃ rows summary,
      pipeline [⟨"a", 1, 2, 3, 0, 10⟩] ⟨[2], 4, .optimal⟩ = .ok (rows, summary) ∧
      summary.totalCost = round2 (objVal (buildProblem ⟨"a", 1, 2, 3, 0, 10⟩ []) [2] 4
        + 4 * (([(⟨"a", 1, 2, 3, 0, 10⟩ : Row)]).map Row.cps).sum) ∧
      |summary.totalCost - (rows.map OutRow.cost).sum|
        ≤ ((([(⟨"a", 1, 2, 3, 0, 10⟩ : Row)]).length : ℚ)) * (1 / 100)) :=
  ⟨rfl, by decide,
   C4_totalCost ⟨"a", 1, 2, 3, 0, 10⟩ [] ⟨[2], 4, .optimal⟩ rfl (by decide)⟩

/-- C8: on every solved instance with a well-indexed input, the i-th output
row is `⟨round(x_i, 3), round(x_i * spb_i * cps_i, 2),
round(costForIngredient_i − s * cps_i, 2)⟩`, the waste entry being computed
from the already-rounded cost entry. -/
theorem C8_rows (first : Row) (rest : List Row) (sol : Solution)
    (hlen : sol.xvals.length = (first :: rest).length)
    (hidx : ∀ i, i < (first :: rest).length →
      ((first :: rest).getD i ⟨"", 0, 0, 0, 0, 0⟩).index = (i : ℤ) + 1) :
    ∃ rows summary, pipeline (first :: rest) sol = .ok (rows, summary) ∧
      rows.length = (first :: rest).length ∧
      ∀ i, i < (first :: rest).length →
        rows.getD i default =
          ⟨round3 (sol.xvals.getD i 0),
           round2 (sol.xvals.getD i 0 * ((first :: rest).getD i ⟨"", 0, 0, 0, 0, 0⟩).spb
             * ((first :: rest).getD i ⟨"", 0, 0, 0, 0, 0⟩).cps),
           round2 (round2 (sol.xvals.getD i 0
               * ((first :: rest).getD i ⟨"", 0, 0, 0, 0, 0⟩).spb
               * ((first :: rest).getD i ⟨"", 0, 0, 0, 0, 0⟩).cps)
             - sol.sval * ((first :: rest).getD i ⟨"", 0, 0, 0, 0, 0⟩).cps)⟩ := by
  have hidx' : ∀ (i : ℕ) (h : i < (first :: rest).length),
      ((first :: rest).get ⟨i, h⟩).index = (i : ℤ) + 1 := by
    intro i h
    have hh := hidx i h
    rw [List.getD_eq_getElem _ _ h] at hh
    rw [List.get_eq_getElem]
    exact hh
  have hpl := pipeline_identity first rest sol hlen hidx'
  refine ⟨_, _, hpl, ?_, ?_⟩
  · rw [List.length_zipWith, hlen, Nat.min_self]
  · intro i hi
    have hzlen : i < (List.zipWith (fun q v => derivedRow sol.sval q v) (first :: rest)
        sol.xvals).length := by
      rw [List.length_zipWith, hlen, Nat.min_self]
      exact hi
    rw [List.getD_eq_getElem _ _ hzlen, List.getElem_zipWith,
      List.getD_eq_getElem sol.xvals 0 (by rw [hlen]; exact hi),
      List.getD_eq_getElem (first :: rest) _ hi]
    rfl

/-- C8 witness: the per-row formulas hold on the single-ingredient instance
with solved values `x = [2]`, `s = 4`. -/
theorem C8_witness :
    ([(2 : ℚ)]).length = ([(⟨"a", 1, 2, 3, 5, 10⟩ : Row)]).length ∧
    (∀ i, i < ([(⟨"a", 1, 2, 3, 5, 10⟩ : Row)]).length →
      (([(⟨"a", 1, 2, 3, 5, 10⟩ : Row)]).getD i ⟨"", 0, 0, 0, 0, 0⟩).index = (i : ℤ) + 1) ∧
    (∃ rows summary,
      pipeline [⟨"a", 1, 2, 3, 5, 10⟩] ⟨[2], 4, .optimal⟩ = .ok (rows, summary) ∧
      rows.length = ([(⟨"a", 1, 2, 3, 5, 10⟩ : Row)]).length ∧
      ∀ i, i < ([(⟨"a", 1, 2, 3, 5, 10⟩ : Row)]).length →
        rows.getD i default =
          ⟨round3 (([(2 : ℚ)]).getD i 0),
           round2 (([(2 : ℚ)]).getD i 0
             * (([(⟨"a", 1, 2, 3, 5, 10⟩ : Row)]).getD i ⟨"", 0, 0, 0, 0, 0⟩).spb
             * (([(⟨"a", 1, 2, 3, 5, 10⟩ : Row)]).getD i ⟨"", 0, 0, 0, 0, 0⟩).cps),
           round2 (round2 (([(2 : ℚ)]).getD i 0
               * (([(⟨"a", 1, 2, 3, 5, 10⟩ : Row)]).getD i ⟨"", 0, 0, 0, 0, 0⟩).spb
               * (([(⟨"a", 1, 2, 3, 5, 10⟩ : Row)]).getD i ⟨"", 0, 0, 0, 0, 0⟩).cps)
             - 4 * (([(⟨"a", 1, 2, 3, 5, 10⟩ : Row)]).getD i ⟨"", 0, 0, 0, 0, 0⟩).cps)⟩) :=
  ⟨rfl, by decide,
   C8_rows ⟨"a", 1, 2, 3, 5, 10⟩ [] ⟨[2], 4, .optimal⟩ rfl (by decide)⟩

/-- C9: for a fixed ingredient sequence, widening the feasible range (any
range containing the original one) never increases the optimal waste: if the
solver returns an optimum for both the original and the widened model, the
widened optimum's objective value — and hence its reported totalWaste,
`round(objectiveValue, 2)` — is at most the original one's. -/
theorem C9_monotone (first : Row) (rest : List Row) (mn mx : ℚ)
    (hmn : mn ≤ first.minS) (hmx : first.maxS ≤ mx)
    (p₁ p₂ : Problem) (h₁ : runLPP (first :: rest) = .ok p₁)
    (h₂ : runLPP ({first with minS := mn, maxS := mx} :: rest) = .ok p₂)
    (xs₁ : List ℚ) (s₁ : ℚ) (xs₂ : List ℚ) (s₂ : ℚ)
    (o₁ : IsOptimal p₁ xs₁ s₁) (o₂ : IsOptimal p₂ xs₂ s₂) :
    objVal p₂ xs₂ s₂ ≤ objVal p₁ xs₁ s₁ ∧
    round2 (objVal p₂ xs₂ s₂) ≤ round2 (objVal p₁ xs₁ s₁) := by
  rw [runLPP_cons] at h₁ h₂
  injection h₁ with e₁
  injection h₂ with e₂
  subst e₁
  subst e₂
  have hfeas : FeasibleSol (buildProblem {first with minS := mn, maxS := mx} rest) xs₁ s₁ := by
    obtain ⟨hl, hint, hs0, hsat⟩ := o₁.1
    refine ⟨hl, hint, hs0, ?_⟩
    rw [satAll_build_iff] at hsat ⊢
    obtain ⟨ha, hb, hc⟩ := hsat
    refine ⟨?_, ?_, hc⟩
    · show mn ≤ s₁
      linarith
    · show s₁ ≤ mx
      linarith
  have hmain := o₂.2 xs₁ s₁ hfeas
  have hobj : objVal (buildProblem {first with minS := mn, maxS := mx} rest) xs₁ s₁
      = objVal (buildProblem first rest) xs₁ s₁ := rfl
  have hle : objVal (buildProblem {first with minS := mn, maxS := mx} rest) xs₂ s₂
      ≤ objVal (buildProblem first rest) xs₁ s₁ := by
    rw [← hobj]
    exact hmain
  exact ⟨hle, round2_mono hle⟩

theorem narrow_opt : IsOptimal (buildProblem ⟨"a", 1, 1, 1, 2, 2⟩ []) [2] 2 := by
  constructor
  · refine ⟨rfl, ?_, by norm_num, ?_⟩
    · intro i hi
      rw [build_n] at hi
      norm_num at hi
      subst hi
      exact ⟨2, by norm_num⟩
    · rw [satAll_build_iff]
      refine ⟨by norm_num, by norm_num, ?_⟩
      intro v hv
      norm_num at hv
      subst hv
      norm_num
  · rintro ys t ⟨hl, hint, ht0, hsat⟩
    rw [satAll_build_iff] at hsat
    obtain ⟨h1, h2, h3⟩ := hsat
    have hb := h3 0 (by norm_num)
    norm_num at hb
    rw [objVal, objVal, evalE_build_objective, evalE_build_objective]
    norm_num [Finset.sum_range_one]
    linarith

theorem wide_opt : IsOptimal (buildProblem ⟨"a", 1, 1, 1, 1, 2⟩ []) [2] 2 := by
  constructor
  · refine ⟨rfl, ?_, by norm_num, ?_⟩
    · intro i hi
      rw [build_n] at hi
      norm_num at hi
      subst hi
      exact ⟨2, by norm_num⟩
    · rw [satAll_build_iff]
      refine ⟨by norm_num, by norm_num, ?_⟩
      intro v hv
      norm_num at hv
      subst hv
      norm_num
  · rintro ys t ⟨hl, hint, ht0, hsat⟩
    rw [satAll_build_iff] at hsat
    obtain ⟨h1, h2, h3⟩ := hsat
    have hb := h3 0 (by norm_num)
    norm_num at hb
    rw [objVal, objVal, evalE_build_objective, evalE_build_objective]
    norm_num [Finset.sum_range_one]
    linarith

/-- C9 witness: the single-ingredient model with range `[2, 2]`, widened to
`[1, 2]`, with the optimum `x = [2]`, `s = 2` on both sides. -/
theorem C9_witness :
    (1 : ℚ) ≤ (⟨"a", 1, 1, 1, 2, 2⟩ : Row).minS ∧
    (⟨"a", 1, 1, 1, 2, 2⟩ : Row).maxS ≤ 2 ∧
    (objVal (buildProblem ⟨"a", 1, 1, 1, 1, 2⟩ []) [2] 2
      ≤ objVal (buildProblem ⟨"a", 1, 1, 1, 2, 2⟩ []) [2] 2 ∧
     round2 (objVal (buildProblem ⟨"a", 1, 1, 1, 1, 2⟩ []) [2] 2)
      ≤ round2 (objVal (buildProblem ⟨"a", 1, 1, 1, 2, 2⟩ []) [2] 2)) :=
  ⟨by norm_num, by norm_num,
   C9_monotone ⟨"a", 1, 1, 1, 2, 2⟩ [] 1 2 (by norm_num) (by norm_num)
     (buildProblem ⟨"a", 1, 1, 1, 2, 2⟩ []) (buildProblem ⟨"a", 1, 1, 1, 1, 2⟩ [])
     rfl rfl [2] 2 [2] 2 narrow_opt wide_opt⟩

end ALCM
